import Mathlib

/-!
Shallow embedding of the P2MP-FTP sender (p2mpclient.c) and receiver
(p2mpserver.c).

Conventions of the embedding:
* C `char` bytes are modelled as natural numbers; the source's masking with
  0xFF (resp. the shift-and-mask producing the high byte) corresponds to
  `% 256` (resp. `% 256 * 256`).
* 16-bit quantities (`int16_t`) are modelled by their unsigned bit pattern,
  a natural number below 65536.  Two's-complement truncation on assignment
  is `% 65536`, and the bitwise one's complement of a 16-bit pattern `s`
  is `65535 - s`.  Equality of `int16_t` values is equality of patterns.
* `int` / `int32_t` sequence counters are modelled as `Int` (the claims
  never approach the 2^31 overflow).
* The C `double` packet-loss probability and the quotient
  `((double) randNum / 100)` are modelled in `ℚ`.
* The receiver's file, socket and loop state become explicit fields of a
  state record; one iteration of its `while` loop becomes a step function.
-/

/-- Packet-type tag `0b0101010101010101` (= 0x5555) from both source files. -/
def DATA_PKT : Nat := 21845

/-- Packet-type tag `0b1010101010101010` (= 0xAAAA, as an unsigned 16-bit
pattern) from both source files. -/
def ACK_PKT : Nat := 43690

/-- Sentinel sequence number `INVALID_SEQ_NO` (-1). -/
def INVALID_SEQ_NO : Int := -1

/-- The accumulation loop of `calculateChecksum` (identical in
p2mpclient.c lines 85-106 and p2mpserver.c lines 67-88): consecutive byte
pairs are combined big-endian into 16-bit words
`((buffer[i] << 8) & 0xFF00) + (buffer[i+1] & 0xFF)` and added into the
`int16_t` accumulator `sum` (two's-complement truncation = `% 65536` on
patterns); an odd trailing byte contributes `(buffer[n-1] << 8) & 0xFF00`. -/
def checksumLoop : List Nat → Nat → Nat
  | [], sum => sum
  | [b], sum => (sum + b % 256 * 256) % 65536
  | b1 :: b2 :: rest, sum => checksumLoop rest ((sum + (b1 % 256 * 256 + b2 % 256)) % 65536)

/-- `calculateChecksum(buffer, bufferSize)`: run the accumulation loop from
`sum = 0`, then return `~sum` (one's complement of the 16-bit pattern). -/
def calculateChecksum (buffer : List Nat) : Nat :=
  65535 - checksumLoop buffer 0

/-- Spec wording, for the refinement claim C8: "pair consecutive bytes
big-endian into 16-bit words, include a final zero-padded word if length is
odd".  (Defined from the spec's words, to be compared with the source's
`calculateChecksum`.) -/
def toWords : List Nat → List Nat
  | [] => []
  | [b] => [b % 256 * 256]
  | b1 :: b2 :: rest => (b1 % 256 * 256 + b2 % 256) :: toWords rest

/-- Spec wording, for the refinement claim C8: "sum with 16-bit wraparound,
then return the one's complement of the accumulated sum". -/
def specChecksum (buffer : List Nat) : Nat :=
  65535 - (toWords buffer).sum % 65536

/-- Wire header (both source files): 32-bit sequence number, 16-bit
checksum, 16-bit packet-type tag (the latter two as unsigned patterns). -/
structure Header where
  seqNum : Int
  checksum : Nat
  type : Nat
deriving DecidableEq

/-- A datagram as the receiver sees it: header plus the `bufferSize =
f_recv_size - sizeof(Header)` payload bytes of `dataPacket.data`. -/
structure Packet where
  hdr : Header
  data : List Nat
deriving DecidableEq

/-- C `strncpy(dest, src, n)` as used by `sendPacket` (p2mpclient.c line
121), restricted to the `n` bytes that are transmitted: source bytes
before the first NUL are copied, and the remainder of the `n` destination
bytes is zero-filled. -/
def strncpyBytes (src : List Nat) (n : Nat) : List Nat :=
  let copied := (src.take n).takeWhile (fun b => b != 0)
  copied ++ List.replicate (n - copied.length) 0

/-- `sendPacket` (p2mpclient.c lines 112-123), packet construction part:
seqNum and DATA tag are set, the payload is copied with
`strncpy(packet.data, buffer, bufferSize)`, and the checksum is computed
over the copied bytes `calculateChecksum(packet.data, bufferSize)`. -/
def sendPacket (segmentNum : Int) (buffer : List Nat) (bufferSize : Nat) : Packet :=
  let data := strncpyBytes buffer bufferSize
  { hdr := { seqNum := segmentNum, checksum := calculateChecksum data, type := DATA_PKT },
    data := data }

/-- The client main loop's reads (p2mpclient.c lines 197-214).  `count`
is the number of iterations still to run (`numSegments - segmentNum`) and
`rest` is the unread tail of the file, i.e. the `fread` cursor sits at
`mss * segmentNum`.  A non-final iteration reads `bufferSize = mss` bytes;
the final iteration (`segmentNum == numSegments - 1`) reads `bufferSize =
fileLength - mss * segmentNum` bytes, which is exactly the remaining
tail `rest`. -/
def readSegments (mss : Nat) : Nat → List Nat → List (List Nat)
  | 0, _ => []
  | 1, rest => [rest]
  | n + 2, rest => rest.take mss :: readSegments mss (n + 1) (rest.drop mss)

/-- All payload buffers that the client main (p2mpclient.c lines 192-217)
hands to `sendPacket`, in sequence order: `numSegments = fileLength / mss
+ 1` buffers read by the loop, then the final zero-length end-of-stream
buffer of line 216. -/
def clientSegments (file : List Nat) (mss : Nat) : List (List Nat) :=
  readSegments mss (file.length / mss + 1) file ++ [[]]

/-- Receiver session state (p2mpserver.c main, lines 159-241).  `output`
is the byte content of the output file, `acks` the headers handed to
`sendto` in order, `done` records that the `while` loop was left through
the `break` of line 236, `fatal` that the process exited through the
`exit(0)` of line 239.  `written` is a history variable: the sequence
numbers of the packets whose payload was written, in write order. -/
structure ServerState where
  expectedSeqNum : Int
  lastSeqNum : Int
  output : List Nat
  acks : List Header
  written : List Int
  done : Bool
  fatal : Bool
deriving DecidableEq

/-- Initial session state (p2mpserver.c lines 165-166): `expectedSeqNum =
0`, `lastSeqNum = INVALID_SEQ_NO`, empty output file. -/
def initState : ServerState :=
  { expectedSeqNum := 0, lastSeqNum := INVALID_SEQ_NO, output := [], acks := [],
    written := [], done := false, fatal := false }

/-- One iteration of the receiver's `while` loop (p2mpserver.c lines
196-241) on datagram `pkt`, with `randNum` the drawn value of
`rand() % 100`.  Order of checks as in the source: a non-DATA datagram
hits the `else` branch and exits the process; a checksum mismatch
`continue`s; the simulated-loss test drops when
`((double) randNum / 100) <= packetLossProb`; an in-sequence packet is
acked with `expectedSeqNum`, written to the file, and advances the state;
an out-of-sequence packet is acked with `lastSeqNum`; finally
`bufferSize == 0` breaks the loop. -/
def serverStep (packetLossProb : ℚ) (st : ServerState) (pkt : Packet) (randNum : Nat) :
    ServerState :=
  if st.done ∨ st.fatal then st
  else if pkt.hdr.type ≠ DATA_PKT then { st with fatal := true }
  else if calculateChecksum pkt.data ≠ pkt.hdr.checksum then st
  else if (randNum : ℚ) / 100 ≤ packetLossProb then st
  else
    let st' :=
      if pkt.hdr.seqNum = st.expectedSeqNum then
        { st with
            acks := st.acks ++ [{ seqNum := st.expectedSeqNum, checksum := 0, type := ACK_PKT }],
            output := st.output ++ pkt.data,
            written := st.written ++ [st.expectedSeqNum],
            lastSeqNum := st.expectedSeqNum,
            expectedSeqNum := st.expectedSeqNum + 1 }
      else
        { st with acks := st.acks ++ [{ seqNum := st.lastSeqNum, checksum := 0, type := ACK_PKT }] }
    if pkt.data.length = 0 then { st' with done := true } else st'

/-- The receiver's `while` loop over a stream of (datagram, random draw)
pairs. -/
def serverRun (packetLossProb : ℚ) (st : ServerState) : List (Packet × Nat) → ServerState
  | [] => st
  | (pkt, r) :: rest => serverRun packetLossProb (serverStep packetLossProb st pkt r) rest

/-- The checksum accumulation loop computes the 16-bit wraparound sum of
the big-endian byte-pair words, shifted by the initial accumulator. -/
theorem checksumLoop_eq : ∀ (bs : List Nat) (s : Nat), s < 65536 →
    checksumLoop bs s = (s + (toWords bs).sum) % 65536
  | [], s, hs => by simp [checksumLoop, toWords, Nat.mod_eq_of_lt hs]
  | [b], s, _ => by simp [checksumLoop, toWords]
  | b1 :: b2 :: rest, s, hs => by
    have ih := checksumLoop_eq rest ((s + (b1 % 256 * 256 + b2 % 256)) % 65536)
      (Nat.mod_lt _ (by norm_num))
    simp only [checksumLoop, toWords, List.sum_cons, ih]
    omega

/-- The source checksum equals the spec-worded checksum. -/
theorem calculateChecksum_eq (bs : List Nat) : calculateChecksum bs = specChecksum bs := by
  rw [calculateChecksum, specChecksum, checksumLoop_eq bs 0 (by norm_num), Nat.zero_add]

set_option maxRecDepth 4096 in
/-- Flipping one bit of one byte, for byte values and bit positions in
range: the xor stays a byte, changes the value, and changes it by exactly
plus or minus the flipped power of two. -/
theorem xorFacts : ∀ b < 256, ∀ j < 8,
    (b ^^^ 2 ^ j < 256 ∧ b ^^^ 2 ^ j ≠ b ∧
      (b ^^^ 2 ^ j = b + 2 ^ j ∨ b = (b ^^^ 2 ^ j) + 2 ^ j)) := by decide

/-- Replacing the byte at position `i` changes the word-sum by the byte
delta weighted 256 at even positions (high byte of its word) and 1 at odd
positions (low byte). -/
theorem toWords_sum_set : ∀ (bs : List Nat) (i v : Nat), i < bs.length →
    (toWords (bs.set i v)).sum + bs.getD i 0 % 256 * (if i % 2 = 0 then 256 else 1)
      = (toWords bs).sum + v % 256 * (if i % 2 = 0 then 256 else 1)
  | [], _, _, h => absurd h (by simp)
  | [_], 0, v, _ => by simp [toWords]; omega
  | [_], i + 1, _, h => absurd h (by simp)
  | _ :: _ :: _, 0, v, _ => by simp [toWords]; omega
  | _ :: _ :: _, 1, v, _ => by simp [toWords, List.getD]; omega
  | b1 :: b2 :: rest, i + 2, v, h => by
    have ih := toWords_sum_set rest i v (by simp at h; omega)
    have hs2 : (b1 :: b2 :: rest).set (i + 2) v = b1 :: b2 :: rest.set i v := by simp
    have hg2 : (b1 :: b2 :: rest).getD (i + 2) 0 = rest.getD i 0 := by
      simp [List.getD_cons_succ]
    rw [hs2, hg2, Nat.add_mod_right]
    simp only [toWords, List.sum_cons]
    by_cases hp : i % 2 = 0
    · rw [if_pos hp] at ih ⊢; omega
    · rw [if_neg hp] at ih ⊢; omega

/-- If two word-sums are forced apart by a nonzero delta below 65536, the
one's-complemented wrapped sums differ. -/
theorem checksum_flip_neq (S S' b v w d : Nat) (hd0 : 0 < d) (hd : d < 65536)
    (hw : S' + b * w = S + v * w) (hc : v * w = b * w + d ∨ b * w = v * w + d) :
    65535 - S' % 65536 ≠ 65535 - S % 65536 := by
  rcases hc with h | h <;> omega

/-- Claim C8: `calculateChecksum` computes, for every byte buffer, the
one's complement of the 16-bit wraparound sum of the big-endian byte-pair
words (with a zero-padded final word for odd lengths), and the empty
buffer yields the complement of zero. -/
theorem C8_checksum_refines_spec :
    (∀ buffer : List Nat, calculateChecksum buffer = specChecksum buffer) ∧
      calculateChecksum [] = 65535 :=
  ⟨calculateChecksum_eq, by decide⟩

/-- Claim C9: for every byte buffer and every single-bit flip of one byte
inside the buffer, the computed checksum changes (no false negative for
single-bit errors). -/
theorem C9_single_bit_flip (bs : List Nat) (hb : ∀ b ∈ bs, b < 256) (i j : Nat)
    (hi : i < bs.length) (hj : j < 8) :
    calculateChecksum (bs.set i (bs.getD i 0 ^^^ 2 ^ j)) ≠ calculateChecksum bs := by
  intro heq
  have hbmem : bs.getD i 0 ∈ bs := by
    rw [List.getD_eq_getElem bs 0 hi]; exact List.getElem_mem hi
  have hb256 : bs.getD i 0 < 256 := hb _ hbmem
  obtain ⟨hv256, hvne, hcase⟩ := xorFacts (bs.getD i 0) hb256 j hj
  have hset := toWords_sum_set bs i (bs.getD i 0 ^^^ 2 ^ j) hi
  rw [Nat.mod_eq_of_lt hb256, Nat.mod_eq_of_lt hv256] at hset
  rw [calculateChecksum_eq, calculateChecksum_eq] at heq
  unfold specChecksum at heq
  have hpow : (2:Nat) ^ j ≤ 128 := by
    have h7 : (2:Nat) ^ j ≤ 2 ^ 7 := Nat.pow_le_pow_right (by norm_num) (by omega)
    norm_num at h7; exact h7
  have hpow0 : 0 < (2:Nat) ^ j := Nat.pos_pow_of_pos j (by norm_num)
  by_cases hp : i % 2 = 0
  · rw [if_pos hp] at hset
    rcases hcase with hc | hc
    · exact checksum_flip_neq _ _ (bs.getD i 0) (bs.getD i 0 ^^^ 2 ^ j) 256 (2 ^ j * 256)
        (by omega) (by omega) hset (Or.inl (by rw [hc, Nat.add_mul])) heq
    · exact checksum_flip_neq _ _ (bs.getD i 0) (bs.getD i 0 ^^^ 2 ^ j) 256 (2 ^ j * 256)
        (by omega) (by omega) hset
        (Or.inr (by conv_lhs => rw [hc]
                    rw [Nat.add_mul])) heq
  · rw [if_neg hp] at hset
    rcases hcase with hc | hc
    · exact checksum_flip_neq _ _ (bs.getD i 0) (bs.getD i 0 ^^^ 2 ^ j) 1 (2 ^ j * 1)
        (by omega) (by omega) hset (Or.inl (by rw [hc, Nat.add_mul])) heq
    · exact checksum_flip_neq _ _ (bs.getD i 0) (bs.getD i 0 ^^^ 2 ^ j) 1 (2 ^ j * 1)
        (by omega) (by omega) hset
        (Or.inr (by conv_lhs => rw [hc]
                    rw [Nat.add_mul])) heq

/-- Concrete instance of C9: flipping bit 0 of the first byte of
`[3, 200]` changes the checksum. -/
theorem C9_single_bit_flip_witness :
    (∀ b ∈ [3, 200], b < 256) ∧ 0 < [3, 200].length ∧ (0:Nat) < 8 ∧
      calculateChecksum ([3, 200].set 0 ([3, 200].getD 0 0 ^^^ 2 ^ 0)) ≠
        calculateChecksum [3, 200] :=
  ⟨by decide, by decide, by decide,
    C9_single_bit_flip [3, 200] (by decide) 0 0 (by decide) (by decide)⟩

/-- Claim C1 (failing input): for a segment whose bytes are `[1, 0, 2]`,
the sender's `strncpy`-based copy stops at the embedded NUL and zero-fills
the rest, so the transmitted payload is `[1, 0, 0]`, not the segment's
bytes; the checksum is computed over the corrupted payload, so a receiver
accepts it and writes `[1, 0, 0]` — the output file is not byte-identical
to the source file. -/
theorem C1_strncpy_nul_corruption :
    (sendPacket 0 [1, 0, 2] 3).data = [1, 0, 0] ∧
      (sendPacket 0 [1, 0, 2] 3).data ≠ [1, 0, 2] ∧
      (sendPacket 0 [1, 0, 2] 3).hdr.checksum = calculateChecksum [1, 0, 0] ∧
      (serverStep 0 initState (sendPacket 0 [1, 0, 2] 3) 99).output = [1, 0, 0] := by
  refine ⟨by decide, by decide, by decide, ?_⟩
  norm_num [serverStep, initState, sendPacket, strncpyBytes, DATA_PKT,
    calculateChecksum, checksumLoop, List.replicate]

/-- The client loop's buffers concatenate to the unread tail it started
from. -/
theorem readSegments_flatten (mss : Nat) : ∀ (k : Nat) (rest : List Nat),
    (readSegments mss (k + 1) rest).flatten = rest
  | 0, rest => by simp [readSegments]
  | k + 1, rest => by
    simp only [readSegments, List.flatten_cons]
    rw [readSegments_flatten mss k (rest.drop mss)]
    exact List.take_append_drop mss rest

/-- The client loop runs exactly its planned number of iterations. -/
theorem readSegments_length (mss : Nat) : ∀ (k : Nat) (rest : List Nat),
    (readSegments mss (k + 1) rest).length = k + 1
  | 0, _ => by simp [readSegments]
  | k + 1, rest => by
    simp only [readSegments, List.length_cons, readSegments_length mss k (rest.drop mss)]

/-- Sizes of the client loop's buffers: every non-final iteration reads
`mss` bytes and the final iteration reads the remaining bytes. -/
theorem readSegments_getD_size (mss : Nat) : ∀ (k : Nat) (rest : List Nat),
    mss * k ≤ rest.length →
    (∀ i, i < k → ((readSegments mss (k + 1) rest).getD i []).length = mss) ∧
      ((readSegments mss (k + 1) rest).getD k []).length = rest.length - mss * k
  | 0, rest, _ => by
    refine ⟨fun i hi => absurd hi (by omega), ?_⟩
    simp [readSegments]
  | k + 1, rest, hlen => by
    have hexp : mss * (k + 1) = mss * k + mss := by ring
    have ih := readSegments_getD_size mss k (rest.drop mss)
      (by rw [List.length_drop]; omega)
    constructor
    · intro i hi
      cases i with
      | zero =>
        simp only [readSegments, List.getD_cons_zero, List.length_take]
        omega
      | succ i' =>
        simp only [readSegments, List.getD_cons_succ]
        exact ih.1 i' (by omega)
    · simp only [readSegments, List.getD_cons_succ]
      rw [ih.2, List.length_drop]
      omega

/-- Claim C2 (counterexample): the claim's packet counts fail when `mss`
divides the file length.  For a 4-byte file with `mss = 4` the sender
produces a full segment 0 and then TWO zero-length segments (the loop's
own last iteration reads 0 bytes, then line 216 adds the end marker), not
"segment 0 (full) then segment 1 (zero length)"; for a 0-byte file it
produces two zero-length segments, not exactly one. -/
theorem C2_exact_multiple_counterexample :
    clientSegments [5, 6, 7, 8] 4 = [[5, 6, 7, 8], [], []] ∧
      clientSegments [5, 6, 7, 8] 4 ≠ [[5, 6, 7, 8], []] ∧
      clientSegments [] 4 = [[], []] ∧ clientSegments [] 4 ≠ [[]] := by
  decide

/-- Claim C2 (amended): for `0 < mss` the sender transmits
`fileLength / mss + 1` loop segments in increasing sequence order starting
at 0 — the first `fileLength / mss` of size `mss` and the last of size
`fileLength % mss` — followed by exactly one extra zero-length end-of-
stream segment; the buffers concatenate to the file.  When `mss` does not
divide the file length this is exactly ceil(length/mss) data segments plus
one end marker; when it does divide (including the empty file), the loop's
final segment is itself a second zero-length segment. -/
theorem C2_segmentation (file : List Nat) (mss : Nat) (h : 0 < mss) :
    (clientSegments file mss).flatten = file ∧
      (clientSegments file mss).length = file.length / mss + 2 ∧
      (∀ i, i < file.length / mss →
        ((clientSegments file mss).getD i []).length = mss) ∧
      ((clientSegments file mss).getD (file.length / mss) []).length = file.length % mss ∧
      (clientSegments file mss).getD (file.length / mss + 1) [] = [] := by
  have hcomm : mss * (file.length / mss) = file.length / mss * mss := Nat.mul_comm _ _
  have hdivle : file.length / mss * mss ≤ file.length := Nat.div_mul_le_self _ _
  have hnk : mss * (file.length / mss) ≤ file.length := by omega
  have hg := readSegments_getD_size mss (file.length / mss) file hnk
  have hlen := readSegments_length mss (file.length / mss) file
  have hfl := readSegments_flatten mss (file.length / mss) file
  have hmod := Nat.mod_add_div file.length mss
  unfold clientSegments
  refine ⟨?_, ?_, ?_, ?_, ?_⟩
  · rw [List.flatten_append, hfl]; simp
  · simp [List.length_append, hlen]
  · intro i hi
    rw [List.getD_append _ _ _ _ (by rw [hlen]; omega)]
    exact hg.1 i hi
  · rw [List.getD_append _ _ _ _ (by rw [hlen]; omega), hg.2]
    omega
  · rw [List.getD_append_right _ _ _ _ (by rw [hlen])]
    rw [hlen]
    simp

/-- Concrete instance of the amended C2 at a 3-byte file with mss 2. -/
theorem C2_segmentation_witness :
    0 < 2 ∧
      ((clientSegments [1, 2, 3] 2).flatten = [1, 2, 3] ∧
        (clientSegments [1, 2, 3] 2).length = [1, 2, 3].length / 2 + 2 ∧
        (∀ i, i < [1, 2, 3].length / 2 →
          ((clientSegments [1, 2, 3] 2).getD i []).length = 2) ∧
        ((clientSegments [1, 2, 3] 2).getD ([1, 2, 3].length / 2) []).length =
          [1, 2, 3].length % 2 ∧
        (clientSegments [1, 2, 3] 2).getD ([1, 2, 3].length / 2 + 1) [] = []) :=
  ⟨by decide, C2_segmentation [1, 2, 3] 2 (by decide)⟩

/-- Claim C3 (counterexample): from the initial state (expected sequence
number 0) a checksum-valid zero-length DATA packet with the out-of-
sequence number 5 still terminates the loop: the `break` on
`bufferSize == 0` (p2mpserver.c line 236) is reached from the
out-of-sequence branch as well. -/
theorem C3_out_of_sequence_end_terminates :
    (serverStep 0 initState
        { hdr := { seqNum := 5, checksum := 65535, type := DATA_PKT }, data := [] } 99).done
      = true ∧ (5 : Int) ≠ initState.expectedSeqNum := by
  constructor
  · norm_num [serverStep, initState, calculateChecksum, checksumLoop, DATA_PKT]
  · norm_num [initState]

/-- Claim C3 (amended): a live session's receive-loop iteration sets the
normal-termination flag exactly when the processed DATA packet is
checksum-valid, survives the simulated-loss draw, and has a zero-length
payload — whether or not it is in sequence. -/
theorem C3_termination_iff (p : ℚ) (st : ServerState) (pkt : Packet) (r : Nat)
    (hdone : st.done = false) (hfatal : st.fatal = false)
    (htype : pkt.hdr.type = DATA_PKT) :
    ((serverStep p st pkt r).done = true ↔
      calculateChecksum pkt.data = pkt.hdr.checksum ∧ ¬ ((r : ℚ) / 100 ≤ p) ∧
        pkt.data = []) := by
  unfold serverStep
  rw [if_neg (by simp [hdone, hfatal]), if_neg (by simp [htype])]
  by_cases hsum : calculateChecksum pkt.data ≠ pkt.hdr.checksum
  · rw [if_pos hsum]
    simp [hdone, hsum]
  · rw [if_neg hsum]
    push_neg at hsum
    by_cases hloss : (r : ℚ) / 100 ≤ p
    · rw [if_pos hloss]
      simp [hdone, hsum, hloss]
    · rw [if_neg hloss]
      by_cases hnil : pkt.data = []
      · rw [hnil] at hsum
        simp [hnil, hsum, hloss]
      · have hlen : pkt.data.length ≠ 0 := by simpa using hnil
        by_cases hseq : pkt.hdr.seqNum = st.expectedSeqNum <;>
          simp [hlen, hnil, hseq, hdone]

/-- Concrete instance of the amended C3 at the initial state and an
out-of-sequence zero-length packet. -/
theorem C3_termination_iff_witness :
    initState.done = false ∧ initState.fatal = false ∧
      (Packet.mk (Header.mk 5 65535 DATA_PKT) []).hdr.type = DATA_PKT ∧
      ((serverStep 0 initState (Packet.mk (Header.mk 5 65535 DATA_PKT) []) 99).done = true ↔
        calculateChecksum (Packet.mk (Header.mk 5 65535 DATA_PKT) []).data =
            (Packet.mk (Header.mk 5 65535 DATA_PKT) []).hdr.checksum ∧
          ¬ (((99 : Nat) : ℚ) / 100 ≤ 0) ∧
          (Packet.mk (Header.mk 5 65535 DATA_PKT) []).data = []) :=
  ⟨rfl, rfl, rfl, C3_termination_iff 0 initState (Packet.mk (Header.mk 5 65535 DATA_PKT) []) 99
    rfl rfl rfl⟩

/-- Claim C4 (counterexample): with loss probability 0 and drawn value 0
the receiver still drops a checksum-valid DATA packet silently: the
source's comparison (p2mpserver.c line 209) is non-strict
(`randNum / 100 <= packetLossProb`) and `0 / 100 <= 0` holds, refuting
"with a loss probability of 0 the receiver never drops a checksum-valid
packet". -/
theorem C4_zero_probability_still_drops :
    serverStep 0 initState
        { hdr := { seqNum := 0, checksum := 63743, type := DATA_PKT }, data := [7] } 0
      = initState ∧ calculateChecksum [7] = 63743 := by
  constructor
  · norm_num [serverStep, initState, calculateChecksum, checksumLoop, DATA_PKT]
  · decide

/-- Claim C4 (amended): a live session drops a checksum-valid DATA packet
by simulated loss (leaving the state untouched, sending nothing) exactly
when `randNum / 100 ≤ lossProbability` — the non-strict comparison of the
source; in particular with loss probability 0 a drawn value of 0 drops
the packet and any other drawn value does not. -/
theorem C4_loss_drop_iff (p : ℚ) (st : ServerState) (pkt : Packet) (r : Nat)
    (hdone : st.done = false) (hfatal : st.fatal = false)
    (htype : pkt.hdr.type = DATA_PKT)
    (hsum : calculateChecksum pkt.data = pkt.hdr.checksum) :
    (serverStep p st pkt r = st ↔ (r : ℚ) / 100 ≤ p) := by
  unfold serverStep
  rw [if_neg (by simp [hdone, hfatal]), if_neg (by simp [htype]),
    if_neg (by simp [hsum])]
  by_cases hloss : (r : ℚ) / 100 ≤ p
  · rw [if_pos hloss]; simp [hloss]
  · rw [if_neg hloss]
    simp only [hloss, iff_false]
    intro heq
    have hacks := congrArg (fun s => s.acks.length) heq
    by_cases hseq : pkt.hdr.seqNum = st.expectedSeqNum <;>
      by_cases hnil : pkt.data.length = 0 <;>
        simp [hseq, hnil] at hacks

/-- Concrete instance of the amended C4: loss probability 0, drawn value
0, a valid one-byte packet. -/
theorem C4_loss_drop_iff_witness :
    initState.done = false ∧ initState.fatal = false ∧
      (Packet.mk (Header.mk 0 63743 DATA_PKT) [7]).hdr.type = DATA_PKT ∧
      calculateChecksum (Packet.mk (Header.mk 0 63743 DATA_PKT) [7]).data =
        (Packet.mk (Header.mk 0 63743 DATA_PKT) [7]).hdr.checksum ∧
      (serverStep 0 initState (Packet.mk (Header.mk 0 63743 DATA_PKT) [7]) 0 = initState ↔
        ((0 : Nat) : ℚ) / 100 ≤ 0) :=
  ⟨rfl, rfl, rfl, by decide,
    C4_loss_drop_iff 0 initState (Packet.mk (Header.mk 0 63743 DATA_PKT) [7]) 0
      rfl rfl rfl (by decide)⟩

/-- Claim C5: a live session processing a checksum-valid, not-dropped DATA
packet whose sequence number differs from `expectedSeqNum` sends exactly
one ACK carrying `lastSeqNum`, writes nothing, and leaves
`expectedSeqNum` and `lastSeqNum` unchanged. -/
theorem C5_out_of_sequence_ack (p : ℚ) (st : ServerState) (pkt : Packet) (r : Nat)
    (hdone : st.done = false) (hfatal : st.fatal = false)
    (htype : pkt.hdr.type = DATA_PKT)
    (hsum : calculateChecksum pkt.data = pkt.hdr.checksum)
    (hloss : ¬ ((r : ℚ) / 100 ≤ p))
    (hseq : pkt.hdr.seqNum ≠ st.expectedSeqNum) :
    (serverStep p st pkt r).acks =
        st.acks ++ [{ seqNum := st.lastSeqNum, checksum := 0, type := ACK_PKT }] ∧
      (serverStep p st pkt r).output = st.output ∧
      (serverStep p st pkt r).expectedSeqNum = st.expectedSeqNum ∧
      (serverStep p st pkt r).lastSeqNum = st.lastSeqNum := by
  by_cases hnil : pkt.data.length = 0 <;>
    simp [serverStep, hdone, hfatal, htype, hsum, hloss, hseq, hnil]

/-- Concrete instance of C5: duplicate/out-of-sequence one-byte packet at
the initial state (nothing accepted yet), re-acked with the sentinel. -/
theorem C5_out_of_sequence_ack_witness :
    initState.done = false ∧ initState.fatal = false ∧
      (Packet.mk (Header.mk 5 63743 DATA_PKT) [7]).hdr.type = DATA_PKT ∧
      calculateChecksum (Packet.mk (Header.mk 5 63743 DATA_PKT) [7]).data =
        (Packet.mk (Header.mk 5 63743 DATA_PKT) [7]).hdr.checksum ∧
      ¬ (((99 : Nat) : ℚ) / 100 ≤ 0) ∧
      (Packet.mk (Header.mk 5 63743 DATA_PKT) [7]).hdr.seqNum ≠ initState.expectedSeqNum ∧
      ((serverStep 0 initState (Packet.mk (Header.mk 5 63743 DATA_PKT) [7]) 99).acks =
          initState.acks ++
            [{ seqNum := initState.lastSeqNum, checksum := 0, type := ACK_PKT }] ∧
        (serverStep 0 initState (Packet.mk (Header.mk 5 63743 DATA_PKT) [7]) 99).output =
          initState.output ∧
        (serverStep 0 initState (Packet.mk (Header.mk 5 63743 DATA_PKT) [7]) 99).expectedSeqNum =
          initState.expectedSeqNum ∧
        (serverStep 0 initState (Packet.mk (Header.mk 5 63743 DATA_PKT) [7]) 99).lastSeqNum =
          initState.lastSeqNum) :=
  ⟨rfl, rfl, rfl, by decide, by norm_num, by decide,
    C5_out_of_sequence_ack 0 initState (Packet.mk (Header.mk 5 63743 DATA_PKT) [7]) 99
      rfl rfl rfl (by decide) (by norm_num) (by decide)⟩

/-- Claim C7: a live session receiving a DATA packet whose recomputed
payload checksum differs from the header's checksum field leaves the
session state completely unchanged — no ACK, no write, same sequence
state, loop still running. -/
theorem C7_checksum_mismatch_drop (p : ℚ) (st : ServerState) (pkt : Packet) (r : Nat)
    (hdone : st.done = false) (hfatal : st.fatal = false)
    (htype : pkt.hdr.type = DATA_PKT)
    (hsum : calculateChecksum pkt.data ≠ pkt.hdr.checksum) :
    serverStep p st pkt r = st := by
  unfold serverStep
  rw [if_neg (by simp [hdone, hfatal]), if_neg (by simp [htype]), if_pos hsum]

/-- Concrete instance of C7: a one-byte packet with a wrong header
checksum is silently ignored. -/
theorem C7_checksum_mismatch_drop_witness :
    initState.done = false ∧ initState.fatal = false ∧
      (Packet.mk (Header.mk 0 0 DATA_PKT) [7]).hdr.type = DATA_PKT ∧
      calculateChecksum (Packet.mk (Header.mk 0 0 DATA_PKT) [7]).data ≠
        (Packet.mk (Header.mk 0 0 DATA_PKT) [7]).hdr.checksum ∧
      serverStep 0 initState (Packet.mk (Header.mk 0 0 DATA_PKT) [7]) 0 = initState :=
  ⟨rfl, rfl, rfl, by decide,
    C7_checksum_mismatch_drop 0 initState (Packet.mk (Header.mk 0 0 DATA_PKT) [7]) 0
      rfl rfl rfl (by decide)⟩

/-- Session invariant of the receiver: `lastSeqNum` trails
`expectedSeqNum` by exactly one, `expectedSeqNum` counts the accepted
packets, and the accepted sequence numbers are `0, 1, ..., k-1` in write
order. -/
def ServerInv (st : ServerState) : Prop :=
  st.lastSeqNum = st.expectedSeqNum - 1 ∧
    st.expectedSeqNum = (st.written.length : Int) ∧
    st.written = (List.range st.written.length).map (fun n : Nat => (n : Int))

/-- The initial session state satisfies the invariant. -/
theorem initState_inv : ServerInv initState := by
  refine ⟨by norm_num [initState, INVALID_SEQ_NO], by simp [initState], by simp [initState]⟩

/-- Field values of an accepting (in-sequence, valid, not-dropped)
iteration of the receive loop. -/
theorem serverStep_accept_fields (p : ℚ) (st : ServerState) (pkt : Packet) (r : Nat)
    (hdone : st.done = false) (hfatal : st.fatal = false)
    (htype : pkt.hdr.type = DATA_PKT)
    (hsum : calculateChecksum pkt.data = pkt.hdr.checksum)
    (hloss : ¬ ((r : ℚ) / 100 ≤ p))
    (hseq : pkt.hdr.seqNum = st.expectedSeqNum) :
    (serverStep p st pkt r).lastSeqNum = st.expectedSeqNum ∧
      (serverStep p st pkt r).expectedSeqNum = st.expectedSeqNum + 1 ∧
      (serverStep p st pkt r).written = st.written ++ [st.expectedSeqNum] ∧
      (serverStep p st pkt r).output = st.output ++ pkt.data := by
  by_cases hnil : pkt.data.length = 0 <;>
    simp [serverStep, hdone, hfatal, htype, hsum, hloss, hseq, hnil]

/-- Every iteration of the receive loop preserves the session invariant. -/
theorem serverStep_inv (p : ℚ) (st : ServerState) (pkt : Packet) (r : Nat)
    (h : ServerInv st) : ServerInv (serverStep p st pkt r) := by
  obtain ⟨h1, h2, h3⟩ := h
  by_cases hdf : st.done ∨ st.fatal
  · simp only [serverStep, if_pos hdf]; exact ⟨h1, h2, h3⟩
  have hdone : st.done = false := by simp at hdf; exact hdf.1
  have hfatal : st.fatal = false := by simp at hdf; exact hdf.2
  by_cases htype : pkt.hdr.type = DATA_PKT
  case neg =>
    have hst : serverStep p st pkt r = { st with fatal := true } := by
      simp [serverStep, hdone, hfatal, htype]
    rw [hst]; exact ⟨h1, h2, h3⟩
  by_cases hsum : calculateChecksum pkt.data = pkt.hdr.checksum
  case neg =>
    have hst : serverStep p st pkt r = st := by
      simp [serverStep, hdone, hfatal, htype, hsum]
    rw [hst]; exact ⟨h1, h2, h3⟩
  by_cases hloss : (r : ℚ) / 100 ≤ p
  · have hst : serverStep p st pkt r = st := by
      simp [serverStep, hdone, hfatal, htype, hsum, hloss]
    rw [hst]; exact ⟨h1, h2, h3⟩
  by_cases hseq : pkt.hdr.seqNum = st.expectedSeqNum
  · obtain ⟨hl, he, hw', -⟩ :=
      serverStep_accept_fields p st pkt r hdone hfatal htype hsum hloss hseq
    refine ⟨?_, ?_, ?_⟩
    · rw [hl, he]; omega
    · rw [he, hw']; simp [h2]
    · rw [hw']
      have hlen : (st.written ++ [st.expectedSeqNum]).length = st.written.length + 1 := by
        simp
      rw [hlen, List.range_succ, List.map_append, ← h3]
      simp [h2]
  · have hfields : (serverStep p st pkt r).lastSeqNum = st.lastSeqNum ∧
        (serverStep p st pkt r).expectedSeqNum = st.expectedSeqNum ∧
        (serverStep p st pkt r).written = st.written := by
      by_cases hnil : pkt.data.length = 0 <;>
        simp [serverStep, hdone, hfatal, htype, hsum, hloss, hseq, hnil]
    obtain ⟨hl, he, hw'⟩ := hfields
    exact ⟨by rw [hl, he]; exact h1, by rw [he, hw']; exact h2, by rw [hw']; exact h3⟩

/-- The receive loop preserves the session invariant. -/
theorem serverRun_inv (p : ℚ) : ∀ (inputs : List (Packet × Nat)) (st : ServerState),
    ServerInv st → ServerInv (serverRun p st inputs)
  | [], _, h => h
  | (pkt, r) :: rest, st, h =>
    serverRun_inv p rest (serverStep p st pkt r) (serverStep_inv p st pkt r h)

/-- Claim C6: within one session (any run from the initial state), payload
is appended to the sink strictly in increasing sequence order: the history
of sequence numbers whose payloads were written is exactly
`0, 1, ..., k-1` in write order, and `expectedSeqNum` counts the writes
(it increased by one with each write). -/
theorem C6_in_order_writes (p : ℚ) (inputs : List (Packet × Nat)) :
    (serverRun p initState inputs).written =
        (List.range (serverRun p initState inputs).written.length).map
          (fun n : Nat => (n : Int)) ∧
      (serverRun p initState inputs).expectedSeqNum =
        ((serverRun p initState inputs).written.length : Int) := by
  have h := serverRun_inv p inputs initState initState_inv
  exact ⟨h.2.2, h.2.1⟩

/-- Claim C10: after any run from the initial state,
`lastSeqNum = expectedSeqNum - 1`, and `lastSeqNum` is the sentinel
`INVALID_SEQ_NO` exactly when no packet has been accepted yet. -/
theorem C10_last_accepted_invariant (p : ℚ) (inputs : List (Packet × Nat)) :
    (serverRun p initState inputs).lastSeqNum =
        (serverRun p initState inputs).expectedSeqNum - 1 ∧
      ((serverRun p initState inputs).lastSeqNum = INVALID_SEQ_NO ↔
        (serverRun p initState inputs).written = []) := by
  obtain ⟨h1, h2, h3⟩ := serverRun_inv p inputs initState initState_inv
  refine ⟨h1, ?_⟩
  rw [h1, h2]
  unfold INVALID_SEQ_NO
  constructor
  · intro hinv
    have hlen : (serverRun p initState inputs).written.length = 0 := by omega
    exact List.length_eq_zero.mp hlen
  · intro hw
    rw [hw]
    simp
